import Mathlib

set_option maxRecDepth 4000

/-!
Verification development for the komodo-python-dbgp repository.

The repository ships `setup.py` in the source tree; the DBGP protocol core
(Framer, Transaction Tracker, Session Registry, Session relay) described by
the design document is provided by the `dbgp` package, whose sources are not
in the tree.  Those components are therefore modelled from the design
document, faithfully to its words; `setup.py` is translated directly from
the source.

Bytes are modelled as natural numbers below 256; a byte stream is a
`List Nat`.  The NUL byte is `0`, ASCII digits are `48`..`57`.
-/

/-- Modelled from the spec: the Framer error taxonomy of section 7 — a
`FramingError` for a malformed length prefix or missing delimiter, and
`FrameTooLarge` when the announced length exceeds the configured cap.
The `dbgp` package implementing the Framer is not in the source tree. -/
inductive FrameError
  | framingError
  | frameTooLarge
deriving DecidableEq, Repr

/-- Result of one Framer read: a decoded payload plus the remaining bytes of
the stream, or a `FrameError`. -/
inductive ReadResult
  | ok (payload rest : List Nat)
  | err (e : FrameError)
deriving DecidableEq, Repr

/-- Modelled from the spec: the decimal ASCII rendering of a natural number,
most significant digit first, used by the Framer for the length prefix. -/
def natToDec (n : Nat) : List Nat :=
  if h : n < 10 then [48 + n]
  else natToDec (n / 10) ++ [48 + n % 10]
termination_by n
decreasing_by exact Nat.div_lt_self (by omega) (by omega)

/-- Accumulator loop parsing ASCII decimal digits; fails on any non-digit
byte. -/
def parseDecAux (acc : Nat) : List Nat → Option Nat
  | [] => some acc
  | b :: bs => if 48 ≤ b ∧ b ≤ 57 then parseDecAux (acc * 10 + (b - 48)) bs else none

/-- Modelled from the spec: parse the ASCII digits preceding the NUL
delimiter as a non-negative integer; fails if the digit sequence is empty or
contains a non-digit byte. -/
def parseDec (l : List Nat) : Option Nat :=
  match l with
  | [] => none
  | _ :: _ => parseDecAux 0 l

/-- Split a byte stream at the first NUL byte: the bytes before it and the
bytes after it; `none` when the stream ends before any NUL is seen. -/
def splitAtNul : List Nat → Option (List Nat × List Nat)
  | [] => none
  | b :: bs =>
    if b = 0 then some ([], bs)
    else
      match splitAtNul bs with
      | none => none
      | some (pre, rest) => some (b :: pre, rest)

/-- Modelled from the spec: the Framer read path of section 4.1 — read bytes
until a NUL delimiter, parse the preceding ASCII digits as a length `L`
(`FramingError` if non-numeric or empty), reject `L` above the configured
maximum before touching the payload (`FrameTooLarge`), read exactly `L`
payload bytes, then read and discard the mandatory trailing NUL
(`FramingError` if missing, e.g. premature EOF).  The `dbgp` package
implementing `readMessage` is not in the source tree. -/
def readMessage (maxFrame : Nat) (s : List Nat) : ReadResult :=
  match splitAtNul s with
  | none => .err .framingError
  | some (header, rest) =>
    match parseDec header with
    | none => .err .framingError
    | some L =>
      if maxFrame < L then .err .frameTooLarge
      else
        match rest.drop L with
        | 0 :: rest2 => .ok (rest.take L) rest2
        | _ => .err .framingError

/-- Modelled from the spec: the Framer write path — emit the decimal ASCII
length, a NUL byte, the payload, and the terminating NUL byte.  The `dbgp`
package implementing `writeMessage` is not in the source tree. -/
def writeMessage (P : List Nat) : List Nat :=
  natToDec P.length ++ 0 :: (P ++ [0])

theorem natToDec_digits (n : Nat) : ∀ b ∈ natToDec n, 48 ≤ b ∧ b ≤ 57 := by
  induction n using Nat.strong_induction_on with
  | _ n ih =>
    rw [natToDec]
    split
    · intro b hb
      rw [List.mem_singleton] at hb
      omega
    · intro b hb
      rcases List.mem_append.mp hb with hb1 | hb2
      · exact ih (n / 10) (Nat.div_lt_self (by omega) (by omega)) b hb1
      · rw [List.mem_singleton] at hb2
        have : n % 10 < 10 := Nat.mod_lt _ (by omega)
        omega

theorem natToDec_ne_nil (n : Nat) : natToDec n ≠ [] := by
  rw [natToDec]
  split
  · simp
  · simp

theorem parseDecAux_append (xs ys : List Nat) : ∀ acc, parseDecAux acc (xs ++ ys) =
    match parseDecAux acc xs with
    | some v => parseDecAux v ys
    | none => none := by
  induction xs with
  | nil => intro acc; rfl
  | cons x xs ih =>
    intro acc
    by_cases hx : 48 ≤ x ∧ x ≤ 57
    · simp only [List.cons_append, parseDecAux, if_pos hx]
      exact ih _
    · simp only [List.cons_append, parseDecAux, if_neg hx]

theorem parseDecAux_natToDec (n : Nat) : parseDecAux 0 (natToDec n) = some n := by
  induction n using Nat.strong_induction_on with
  | _ n ih =>
    rw [natToDec]
    split
    · simp only [parseDecAux]
      rw [if_pos (by omega)]
      have : 0 * 10 + (48 + n - 48) = n := by omega
      rw [this]
    · rw [parseDecAux_append]
      rw [ih (n / 10) (Nat.div_lt_self (by omega) (by omega))]
      have hm : n % 10 < 10 := Nat.mod_lt _ (by omega)
      simp only [parseDecAux]
      rw [if_pos (by omega)]
      have : n / 10 * 10 + (48 + n % 10 - 48) = n := by omega
      rw [this]

theorem parseDec_natToDec (n : Nat) : parseDec (natToDec n) = some n := by
  obtain ⟨b, bs, h⟩ := List.exists_cons_of_ne_nil (natToDec_ne_nil n)
  rw [h]
  show parseDecAux 0 (b :: bs) = some n
  rw [← h]
  exact parseDecAux_natToDec n

theorem splitAtNul_append (pre tail : List Nat) (h : ∀ b ∈ pre, b ≠ 0) :
    splitAtNul (pre ++ 0 :: tail) = some (pre, tail) := by
  induction pre with
  | nil => simp [splitAtNul]
  | cons b bs ih =>
    have hb : b ≠ 0 := h b (List.mem_cons_self _ _)
    have ih2 := ih (fun x hx => h x (List.mem_cons_of_mem _ hx))
    simp only [List.cons_append, splitAtNul, if_neg hb, List.append_eq, ih2]

theorem natToDec_ne_zero (n : Nat) : ∀ b ∈ natToDec n, b ≠ 0 := by
  intro b hb
  have := natToDec_digits n b hb
  omega

/-- Core round-trip lemma: a frame written by the Framer, followed by any
remaining stream, reads back as exactly the payload with the remaining
stream untouched. -/
theorem readMessage_writeMessage (mf : Nat) (P rest : List Nat) (h : P.length ≤ mf) :
    readMessage mf (writeMessage P ++ rest) = .ok P rest := by
  have hshape : writeMessage P ++ rest = natToDec P.length ++ 0 :: (P ++ 0 :: rest) := by
    simp [writeMessage, List.append_assoc]
  rw [hshape]
  have hlt : ¬ (mf < P.length) := by omega
  simp only [readMessage, splitAtNul_append _ _ (natToDec_ne_zero P.length),
    parseDec_natToDec, if_neg hlt, List.drop_left, List.take_left]

theorem parseDecAux_none (l : List Nat) :
    (∃ b ∈ l, ¬ (48 ≤ b ∧ b ≤ 57)) → ∀ acc, parseDecAux acc l = none := by
  induction l with
  | nil => intro hx; simp at hx
  | cons b bs ih =>
    intro hx acc
    by_cases hb : 48 ≤ b ∧ b ≤ 57
    · obtain ⟨c, hc, hcd⟩ := hx
      rcases List.mem_cons.mp hc with rfl | hmem
      · exact absurd hb hcd
      · simp only [parseDecAux, if_pos hb]
        exact ih ⟨c, hmem, hcd⟩ _
    · simp only [parseDecAux, if_neg hb]

theorem parseDec_none (l : List Nat) (h : ¬ (l ≠ [] ∧ ∀ b ∈ l, 48 ≤ b ∧ b ≤ 57)) :
    parseDec l = none := by
  cases l with
  | nil => rfl
  | cons b bs =>
    push_neg at h
    have hx : ∃ c ∈ b :: bs, ¬ (48 ≤ c ∧ c ≤ 57) := by
      obtain ⟨c, hc, hcd⟩ := h (by simp)
      exact ⟨c, hc, fun hd => by have := hcd hd.1; omega⟩
    show parseDecAux 0 (b :: bs) = none
    exact parseDecAux_none _ hx 0

/-- C1: for every byte payload `P` with `0 ≤ len(P) ≤ maxFrame`, encoding
`P` with the Framer `writeMessage` and then decoding the resulting bytes
with the Framer `readMessage` yields exactly `P` (with the stream fully
consumed). -/
theorem frame_roundtrip (maxFrame : Nat) (P : List Nat) (h : P.length ≤ maxFrame) :
    readMessage maxFrame (writeMessage P) = .ok P [] := by
  have := readMessage_writeMessage maxFrame P [] h
  rwa [List.append_nil] at this

theorem frame_roundtrip_witness :
    readMessage 10 (writeMessage [60, 104, 105, 62]) = .ok [60, 104, 105, 62] [] :=
  frame_roundtrip 10 [60, 104, 105, 62] (by decide)

/-- C2: whenever the frame header announces a length `L` greater than the
configured maximum frame size, `readMessage` fails with `FrameTooLarge`;
the result is the same for every continuation of the stream after the
header NUL, so no payload byte is examined and no memory proportional to
`L` is consumed. -/
theorem oversize_rejected (maxFrame L : Nat) (header rest : List Nat)
    (hh : ∀ b ∈ header, b ≠ 0) (hp : parseDec header = some L) (hL : maxFrame < L) :
    readMessage maxFrame (header ++ 0 :: rest) = .err .frameTooLarge := by
  simp only [readMessage, splitAtNul_append _ _ hh, hp, if_pos hL]

theorem oversize_rejected_witness :
    readMessage 4 ([53] ++ 0 :: []) = .err .frameTooLarge :=
  oversize_rejected 4 5 [53] [] (by decide) (by decide) (by decide)

/-- C3: when the bytes before the first NUL delimiter are not a non-empty
sequence of ASCII digits, `readMessage` fails with `FramingError`; and when
the mandatory trailing NUL after the `L` payload bytes is missing because
the stream ends right after the payload, `readMessage` also fails with
`FramingError`. -/
theorem malformed_frame_rejected (mf : Nat) :
    (∀ pre rest : List Nat, (∀ b ∈ pre, b ≠ 0) →
      ¬ (pre ≠ [] ∧ ∀ b ∈ pre, 48 ≤ b ∧ b ≤ 57) →
      readMessage mf (pre ++ 0 :: rest) = .err .framingError) ∧
    (∀ P : List Nat, P.length ≤ mf →
      readMessage mf (natToDec P.length ++ 0 :: P) = .err .framingError) := by
  constructor
  · intro pre rest h0 hbad
    simp only [readMessage, splitAtNul_append _ _ h0, parseDec_none _ hbad]
  · intro P hP
    have hlt : ¬ (mf < P.length) := by omega
    simp only [readMessage, splitAtNul_append _ _ (natToDec_ne_zero P.length),
      parseDec_natToDec, if_neg hlt, List.drop_length]

theorem malformed_frame_rejected_witness :
    readMessage 100 ([97, 98, 99] ++ 0 :: [112, 97, 121, 108, 111, 97, 100, 0])
      = .err .framingError ∧
    readMessage 100 (natToDec ([116, 117] : List Nat).length ++ 0 :: [116, 117])
      = .err .framingError :=
  ⟨(malformed_frame_rejected 100).1 [97, 98, 99] [112, 97, 121, 108, 111, 97, 100, 0]
      (by decide) (by decide),
   (malformed_frame_rejected 100).2 [116, 117] (by decide)⟩

/-- Modelled from the spec: per-session Transaction Tracker state of section
4.2, holding the last issued transaction identifier.  The `dbgp` package
implementing the tracker is not in the source tree. -/
structure TxTracker where
  lastTid : Nat
deriving DecidableEq, Repr

/-- Modelled from the spec: `nextTransactionId` returns a fresh,
session-scoped monotonically increasing identifier together with the
updated tracker state. -/
def nextTransactionId (t : TxTracker) : Nat × TxTracker :=
  (t.lastTid + 1, ⟨t.lastTid + 1⟩)

/-- C4: for every session state, the identifier returned by a call to
`nextTransactionId` that immediately follows another one is strictly
greater than the identifier returned by the earlier call, so each value is
fresh and the sequence is session-scoped monotonically increasing. -/
theorem nextTransactionId_mono (t : TxTracker) :
    (nextTransactionId t).1 < (nextTransactionId (nextTransactionId t).2).1 := by
  simp [nextTransactionId]

/-- Modelled from the spec: an IDE listen address (host and port). -/
abbrev Address := String × Nat

/-- Modelled from the spec: the Session Registry of section 4.4, a
process-wide table mapping an IDE key to the registered IDE listen
address.  The `dbgp` package implementing the registry is not in the
source tree. -/
abbrev Registry := List (String × Address)

/-- Look up the currently registered address for a key (first match). -/
def regLookup : Registry → String → Option Address
  | [], _ => none
  | (k2, a) :: t, k => if k2 = k then some a else regLookup t k

/-- Remove every entry registered under the given key. -/
def removeKey (r : Registry) (k : String) : Registry :=
  r.filter (fun e => e.1 != k)

/-- Error taxonomy of the Registry administrative operations. -/
inductive RegError
  | invalidKey
deriving DecidableEq, Repr

/-- Result of `registerIDE`. -/
inductive RegisterResult
  | ok (r : Registry)
  | err (e : RegError)
deriving DecidableEq, Repr

/-- Modelled from the spec: `registerIDE(key, address)` installs or replaces
the listen address for an IDE key; fails with `InvalidKey` on empty key. -/
def registerIDE (r : Registry) (k : String) (a : Address) : RegisterResult :=
  if k = "" then .err .invalidKey
  else .ok ((k, a) :: removeKey r k)

/-- Modelled from the spec: `unregisterIDE(key)` removes the mapping for the
key. -/
def unregisterIDE (r : Registry) (k : String) : Registry :=
  removeKey r k

/-- Result of `pairEngine`: the registered IDE address for the key, or
`NoSuchKey` when none is registered. -/
inductive PairResult
  | ideAddr (a : Address)
  | noSuchKey
deriving DecidableEq, Repr

/-- Modelled from the spec: `pairEngine(key)` is called when an engine
connects and announces its key; it returns the currently registered IDE
address for that key, or `NoSuchKey` if none is registered. -/
def pairEngine (r : Registry) (k : String) : PairResult :=
  match regLookup r k with
  | some a => .ideAddr a
  | none => .noSuchKey

/-- Modelled from the spec: a Session object binding an engine connection,
identified by its IDE key, to the IDE address it was paired with. -/
structure Session where
  idekey : String
  ideAddr : Address
deriving DecidableEq, Repr

/-- Outcome of the engine acceptor for one engine connection: either a
Session is created toward the returned IDE address, or the connection is
closed immediately. -/
inductive AcceptOutcome
  | sessionCreated (s : Session)
  | connClosed
deriving DecidableEq, Repr

/-- Modelled from the spec: the engine acceptor of section 4.5 — on a new
engine connection announcing key `k`, call `pairEngine`; on success create
a Session toward the returned address; on `NoSuchKey` close the engine
connection immediately, creating no Session. -/
def handleEngineConnect (r : Registry) (k : String) : AcceptOutcome :=
  match pairEngine r k with
  | .ideAddr a => .sessionCreated ⟨k, a⟩
  | .noSuchKey => .connClosed

/-- The Session persisting after an accept outcome, if any. -/
def sessionOf : AcceptOutcome → Option Session
  | .sessionCreated s => some s
  | .connClosed => none

/-- C5: in every Registry state with no IDE address registered for key `k`,
`pairEngine k` returns `NoSuchKey`, the engine connection announcing `k`
is closed immediately, and no Session object is created or persists
afterward. -/
theorem pairEngine_unregistered (r : Registry) (k : String) (h : regLookup r k = none) :
    pairEngine r k = .noSuchKey ∧ handleEngineConnect r k = .connClosed ∧
      sessionOf (handleEngineConnect r k) = none := by
  have hp : pairEngine r k = .noSuchKey := by
    simp only [pairEngine, h]
  refine ⟨hp, ?_, ?_⟩
  · simp only [handleEngineConnect, hp]
  · simp only [handleEngineConnect, hp, sessionOf]

theorem pairEngine_unregistered_witness :
    pairEngine [] "zzz" = .noSuchKey ∧ handleEngineConnect [] "zzz" = .connClosed ∧
      sessionOf (handleEngineConnect [] "zzz") = none :=
  pairEngine_unregistered [] "zzz" rfl

theorem regLookup_removeKey (r : Registry) (k : String) :
    regLookup (removeKey r k) k = none := by
  induction r with
  | nil => rfl
  | cons e t ih =>
    obtain ⟨k2, a⟩ := e
    by_cases hk : k2 = k
    · subst hk
      have hdrop : removeKey ((k2, a) :: t) k2 = removeKey t k2 := by
        simp [removeKey, List.filter_cons]
      rw [hdrop]
      exact ih
    · have hkeep : removeKey ((k2, a) :: t) k = (k2, a) :: removeKey t k := by
        simp [removeKey, List.filter_cons, hk]
      rw [hkeep]
      simp only [regLookup, if_neg hk]
      exact ih

/-- C6: registering key `k` at address `A` and then unregistering `k`
leaves the Registry with no mapping for `k`, and a `pairEngine k` issued
strictly after the unregister returns `NoSuchKey`; additionally,
`registerIDE` fails with `InvalidKey` when the key is the empty string. -/
theorem register_unregister_no_mapping (r : Registry) (k : String) (a : Address)
    (r2 : Registry) :
    (k ≠ "" → registerIDE r k a = .ok r2 →
      regLookup (unregisterIDE r2 k) k = none ∧
      pairEngine (unregisterIDE r2 k) k = .noSuchKey) ∧
    registerIDE r "" a = .err .invalidKey := by
  constructor
  · intro _ _
    refine ⟨regLookup_removeKey r2 k, ?_⟩
    simp only [pairEngine, unregisterIDE, regLookup_removeKey r2 k]
  · simp [registerIDE]

theorem register_unregister_no_mapping_witness :
    (regLookup (unregisterIDE [("k", ("127.0.0.1", 9000))] "k") "k" = none ∧
      pairEngine (unregisterIDE [("k", ("127.0.0.1", 9000))] "k") "k" = .noSuchKey) ∧
    registerIDE [] "" ("127.0.0.1", 9000) = .err .invalidKey :=
  ⟨(register_unregister_no_mapping [] "k" ("127.0.0.1", 9000)
      [("k", ("127.0.0.1", 9000))]).1 (by decide) (by decide),
   (register_unregister_no_mapping [] "k" ("127.0.0.1", 9000)
      [("k", ("127.0.0.1", 9000))]).2⟩

/-- Byte stream produced by the source side of one direction of a Session:
the concatenation of the framed encodings of the frames it writes. -/
def encodeAll : List (List Nat) → List Nat
  | [] => []
  | F :: Fs => writeMessage F ++ encodeAll Fs

/-- Modelled from the spec: the destination side of one direction of a
Session, reading complete frames one at a time via the Framer until the
stream ends; `none` when a framing error occurs or the fuel runs out
mid-stream. -/
def readAll (mf : Nat) : Nat → List Nat → Option (List (List Nat))
  | _, [] => some []
  | 0, _ :: _ => none
  | fuel + 1, b :: bs =>
    match readMessage mf (b :: bs) with
    | .ok p rest =>
      match readAll mf fuel rest with
      | some ps => some (p :: ps)
      | none => none
    | .err _ => none

/-- Modelled from the spec: one direction of the Session relay loop of
section 4.3 — read one full frame via the Framer from the source, write the
identical frame via the Framer to the destination, repeat; stop cleanly at
end of stream, stop with failure on a framing error or when the fuel runs
out.  Returns the bytes written to the destination and whether the loop
ended cleanly.  The `dbgp` package implementing the Session is not in the
source tree. -/
def relayLoop (mf : Nat) : Nat → List Nat → List Nat → List Nat × Bool
  | _, [], out => (out, true)
  | 0, _ :: _, out => (out, false)
  | fuel + 1, b :: bs, out =>
    match readMessage mf (b :: bs) with
    | .ok p rest => relayLoop mf fuel rest (out ++ writeMessage p)
    | .err _ => (out, false)

theorem writeMessage_append_ne_nil (P s : List Nat) : writeMessage P ++ s ≠ [] := by
  intro h
  rw [writeMessage, List.append_assoc] at h
  exact natToDec_ne_nil P.length (List.append_eq_nil.mp h).1

theorem readAll_succ (mf fuel : Nat) (src : List Nat) (h : src ≠ []) :
    readAll mf (fuel + 1) src =
      match readMessage mf src with
      | .ok p rest =>
        match readAll mf fuel rest with
        | some ps => some (p :: ps)
        | none => none
      | .err _ => none := by
  cases src with
  | nil => exact absurd rfl h
  | cons b bs => rfl

theorem relayLoop_succ (mf fuel : Nat) (src out : List Nat) (h : src ≠ []) :
    relayLoop mf (fuel + 1) src out =
      match readMessage mf src with
      | .ok p rest => relayLoop mf fuel rest (out ++ writeMessage p)
      | .err _ => (out, false) := by
  cases src with
  | nil => exact absurd rfl h
  | cons b bs => rfl

theorem readAll_encodeAll (mf : Nat) :
    ∀ Fs : List (List Nat), (∀ F ∈ Fs, F.length ≤ mf) →
      readAll mf Fs.length (encodeAll Fs) = some Fs := by
  intro Fs
  induction Fs with
  | nil => intro _; rfl
  | cons F Fs ih =>
    intro h
    have hF : F.length ≤ mf := h F (List.mem_cons_self _ _)
    have hrest := ih (fun G hG => h G (List.mem_cons_of_mem _ hG))
    show readAll mf (Fs.length + 1) (writeMessage F ++ encodeAll Fs) = some (F :: Fs)
    rw [readAll_succ mf Fs.length _ (writeMessage_append_ne_nil F _),
      readMessage_writeMessage mf F (encodeAll Fs) hF]
    simp only [hrest]

theorem relayLoop_encodeAll (mf : Nat) :
    ∀ (Fs : List (List Nat)) (out : List Nat), (∀ F ∈ Fs, F.length ≤ mf) →
      relayLoop mf Fs.length (encodeAll Fs) out = (out ++ encodeAll Fs, true) := by
  intro Fs
  induction Fs with
  | nil =>
    intro out _
    show relayLoop mf 0 [] out = (out ++ [], true)
    rw [List.append_nil]
    rfl
  | cons F Fs ih =>
    intro out h
    have hF : F.length ≤ mf := h F (List.mem_cons_self _ _)
    show relayLoop mf (Fs.length + 1) (writeMessage F ++ encodeAll Fs) out
      = (out ++ (writeMessage F ++ encodeAll Fs), true)
    rw [relayLoop_succ mf Fs.length _ out (writeMessage_append_ne_nil F _),
      readMessage_writeMessage mf F (encodeAll Fs) hF]
    show relayLoop mf Fs.length (encodeAll Fs) (out ++ writeMessage F)
      = (out ++ (writeMessage F ++ encodeAll Fs), true)
    rw [ih (out ++ writeMessage F) (fun G hG => h G (List.mem_cons_of_mem _ hG)),
      List.append_assoc]

/-- C7: for every sequence of frames `F1..Fn` written by the source side of
one direction of a Session (and fitting the frame-size cap), running the
relay loop over the source stream and letting the destination read the
relayed bytes via the Framer yields exactly `F1..Fn`, in identical order
and with byte-identical content. -/
theorem relay_preserves_order_and_content (mf : Nat) (Fs : List (List Nat))
    (h : ∀ F ∈ Fs, F.length ≤ mf) :
    readAll mf Fs.length (relayLoop mf Fs.length (encodeAll Fs) []).1 = some Fs := by
  rw [relayLoop_encodeAll mf Fs [] h]
  show readAll mf Fs.length ([] ++ encodeAll Fs) = some Fs
  rw [List.nil_append]
  exact readAll_encodeAll mf Fs h

theorem relay_preserves_order_and_content_witness :
    readAll 10 ([[60, 97, 62], [60, 98, 62]] : List (List Nat)).length
      (relayLoop 10 ([[60, 97, 62], [60, 98, 62]] : List (List Nat)).length
        (encodeAll [[60, 97, 62], [60, 98, 62]]) []).1
      = some [[60, 97, 62], [60, 98, 62]] :=
  relay_preserves_order_and_content 10 [[60, 97, 62], [60, 98, 62]] (by decide)

/-- Boolean test that the first character list is an initial segment of the
second. -/
def startsWithSeq : List Char → List Char → Bool
  | [], _ => true
  | _ :: _, [] => false
  | a :: as, b :: bs => a == b && startsWithSeq as bs

/-- Boolean test that the first character list occurs contiguously inside
the second, mirroring the Python `in` operator on strings. -/
def hasSub (needle : List Char) : List Char → Bool
  | [] => needle.isEmpty
  | b :: t => startsWithSeq needle (b :: t) || hasSub needle t

/-- Substring containment on strings, as used by `'win32' in self.plat_name`
in `setup.py`. -/
def containsSub (needle hay : String) : Bool :=
  hasSub needle.toList hay.toList

/-- Translated from `src/setup.py`, `Dbgp_build_ext.build_extensions` lines
20 to 26: the local variable `plat` is assigned `win32-x86` when the
platform name contains `win32`, otherwise `linux-x86_64` or `linux-x86`
when it contains `linux` (depending on whether it contains `64`), and is
left unassigned otherwise, which makes the later use of `plat` raise; the
unassigned case is modelled as `none`. -/
def platFor (plat_name : String) : Option String :=
  if containsSub "win32" plat_name then some "win32-x86"
  else if containsSub "linux" plat_name then
    (if containsSub "64" plat_name then some "linux-x86_64" else some "linux-x86")
  else none

/-- Path concatenation as performed by `os.path.join` on relative POSIX
components. -/
def pathJoin (a b : String) : String :=
  a ++ "/" ++ b

/-- Translated from `src/setup.py` line 27: the directory holding the
prebuilt binaries, `os.path.join(scriptdir, 'libs', plat)`. -/
def sourcePathFor (scriptdir plat : String) : String :=
  pathJoin (pathJoin scriptdir "libs") plat

/-- Observable effects of one `build_extensions` run: the list of file
copies performed (source and target paths) and whether the
`prebuilt binaries were copied` message was printed. -/
structure BuildEffects where
  copies : List (String × String)
  printedCopied : Bool
deriving DecidableEq, Repr

/-- Translated from `src/setup.py`, `Dbgp_build_ext.build_extensions` lines
17 to 38: pick the `libs` subdirectory for the platform; if `plat` was
never assigned the method raises (modelled as `none`); if the directory
exists, copy every file it lists into the build target directory and print
the message; otherwise do nothing.  The filesystem is supplied as the
`pathExists` and `listdir` oracles, and the build target directory as
`targetpath`. -/
def build_extensions (plat_name scriptdir targetpath : String)
    (pathExists : String → Bool) (listdir : String → List String) :
    Option BuildEffects :=
  match platFor plat_name with
  | none => none
  | some plat =>
    let sourcepath := sourcePathFor scriptdir plat
    if pathExists sourcepath then
      some ⟨(listdir sourcepath).map (fun fn => (pathJoin sourcepath fn, pathJoin targetpath fn)),
        true⟩
    else
      some ⟨[], false⟩

/-- Filesystem oracle for witnesses: no path exists. -/
def noPathExists : String → Bool :=
  fun _ => false

/-- Filesystem oracle for witnesses: every directory lists empty. -/
def emptyListdir : String → List String :=
  fun _ => []

/-- C8: for every platform name containing neither `win32` nor `linux`,
`build_extensions` raises (the local variable `plat` is never assigned
before it is used to build `sourcepath`), modelled as the run producing
`none`; the build step is not total over platform names. -/
theorem build_extensions_plat_unassigned (p sd tp : String)
    (pathExists : String → Bool) (listdir : String → List String)
    (h1 : containsSub "win32" p = false) (h2 : containsSub "linux" p = false) :
    build_extensions p sd tp pathExists listdir = none := by
  simp only [build_extensions, platFor, h1, if_false, h2, Bool.false_eq_true]

theorem build_extensions_plat_unassigned_witness :
    build_extensions "macosx-10.9-x86_64" "." "build" noPathExists emptyListdir = none :=
  build_extensions_plat_unassigned "macosx-10.9-x86_64" "." "build" noPathExists emptyListdir
    (by decide) (by decide)

/-- C9: for every platform whose computed `libs/<plat>` directory next to
the script does not exist, `build_extensions` completes without copying any
file and without printing the copied-binaries message, leaving the build
output untouched. -/
theorem build_extensions_no_libs_dir (p sd tp plat : String)
    (pathExists : String → Bool) (listdir : String → List String)
    (hplat : platFor p = some plat)
    (hdir : pathExists (sourcePathFor sd plat) = false) :
    build_extensions p sd tp pathExists listdir = some ⟨[], false⟩ := by
  simp only [build_extensions, hplat, hdir, Bool.false_eq_true, if_false]

theorem build_extensions_no_libs_dir_witness :
    build_extensions "linux-i686" "." "build" noPathExists emptyListdir = some ⟨[], false⟩ :=
  build_extensions_no_libs_dir "linux-i686" "." "build" "linux-x86" noPathExists emptyListdir
    (by decide) rfl

/-- C10: the platform-to-binaries mapping is deterministic and prioritized —
a platform name containing `win32` maps to `win32-x86` even if it also
contains `linux` or `64`; otherwise one containing `linux` maps to
`linux-x86_64` exactly when it contains `64` and to `linux-x86` otherwise. -/
theorem platFor_prioritized (p : String) :
    (containsSub "win32" p = true → platFor p = some "win32-x86") ∧
    (containsSub "win32" p = false → containsSub "linux" p = true →
      platFor p = if containsSub "64" p then some "linux-x86_64" else some "linux-x86") := by
  constructor
  · intro h
    simp only [platFor, h, if_true]
  · intro h1 h2
    simp only [platFor, h1, Bool.false_eq_true, if_false, h2, if_true]

theorem platFor_prioritized_witness :
    platFor "win32-linux-64" = some "win32-x86" ∧
    platFor "linux-x86_64" = some "linux-x86_64" ∧
    platFor "linux-i686" = some "linux-x86" := by
  refine ⟨(platFor_prioritized "win32-linux-64").1 (by decide), ?_, ?_⟩
  · have h := (platFor_prioritized "linux-x86_64").2 (by decide) (by decide)
    rw [h]
    decide
  · have h := (platFor_prioritized "linux-i686").2 (by decide) (by decide)
    rw [h]
    decide
